import Mathlib

/-!
Verification of the ChainTracker component (chaintracker package): a bounded
sliding window of recent block records, fork detection by hash comparison,
backwards-scan overlap repair, callback dispatch and exponential backoff.
The definitions below are a shallow embedding of the Go source; the remote
node is modelled as a pure oracle for one poll cycle, and the two optional
callbacks are modelled by presence flags plus an explicit event trace.
-/

/-- A stored block record: `BlockStore` of the source. -/
structure BlockStore where
  Block : Int
  Hash : String
deriving DecidableEq, Repr

/-- The zero value of `BlockStore` in Go: number 0, empty hash. -/
def dfltBS : BlockStore := { Block := 0, Hash := "" }

/-- The tracker state the claims are about: window capacity `blocksToSave`
(uint64), the atomic `latestBlockNum` (int64), the window `blocksQueue`
(index 0 oldest), the `serverBlockMemory` horizon (uint64), and two flags
recording whether the fork / new-latest callbacks are configured (non-nil). -/
structure ChainTracker where
  blocksToSave : Nat
  latestBlockNum : Int
  blocksQueue : List BlockStore
  serverBlockMemory : Nat
  forkCallback : Bool
  newLatestCallback : Bool
deriving DecidableEq, Repr

/-- Errors of the tracker; remote failures carry an opaque message. -/
inductive TrackErr where
  | tooOldForRemote : TrackErr
  | olderThanCurrentState : TrackErr
  | notEnoughBlocks : TrackErr
  | remoteFailure (msg : String) : TrackErr
deriving DecidableEq, Repr

/-- `getLatestBlockUnsafe` of the source: the newest record, or the
`BAD-HASH` sentinel when the window is empty. -/
def getLatestBlockStored (cs : ChainTracker) : BlockStore :=
  match cs.blocksQueue.getLast? with
  | none => { Block := 0, Hash := "BAD-HASH" }
  | some b => b

/-- `fetchBlockHashByNum`: pre-reject requests older than
`latestBlockNum - serverBlockMemory`, otherwise forward to the remote. -/
def fetchBlockHashByNum (cs : ChainTracker) (remote : Int → Except TrackErr String)
    (blockNum : Int) : Except TrackErr String :=
  if blockNum < cs.latestBlockNum - (cs.serverBlockMemory : Int) then
    .error .tooOldForRemote
  else
    remote blockNum

/-- `hashesOverlapIndexes` of the source, verbatim: decides whether the hash
fetched at scan iteration `newQueueIdx` overlaps the existing window, and on
acceptance returns `(true, readIndexDiff, overwriteElements,
overwriteElements - readIndexDiff)`. -/
def hashesOverlapIndexes (cs : ChainTracker) (readIndexDiff newQueueIdx fetchedBlockNum : Int)
    (newHashForBlock : String) : Bool × Int × Int × Int :=
  let savedBlocks : Int := cs.blocksQueue.length
  if readIndexDiff ≥ savedBlocks then
    (false, 0, 0, 0)
  else
    let blocksQueueEnd := savedBlocks - 1 + readIndexDiff
    let blocksQueueIdx := blocksQueueEnd - newQueueIdx
    if 0 < blocksQueueIdx ∧ blocksQueueIdx ≤ savedBlocks - 1 then
      let existingBlockStore := cs.blocksQueue.getD blocksQueueIdx.toNat dfltBS
      if existingBlockStore.Block ≠ fetchedBlockNum then
        (false, 0, 0, 0)
      else if existingBlockStore.Hash = newHashForBlock then
        let overwriteElements := blocksQueueIdx + 1
        if overwriteElements < (cs.blocksToSave : Int) - 1 - newQueueIdx ∨
            readIndexDiff > overwriteElements then
          (false, 0, 0, 0)
        else
          (true, readIndexDiff, overwriteElements, overwriteElements - readIndexDiff)
      else
        (false, 0, 0, 0)
    else
      (false, 0, 0, 0)

/-- The loop body of `readHashes`: iterate `idx` upwards while `remaining`
(`blocksToSave - idx` at the call site) is positive, fetching block
`latestBlock - idx`, stopping on an accepted overlap, otherwise writing the
fetched record at `blocksToSave - 1 - idx` of the new queue. The running
`acc` holds the indexes the last `hashesOverlapIndexes` call produced. -/
def readHashesLoop (cs : ChainTracker) (remote : Int → Except TrackErr String)
    (latestBlock readIndexDiff : Int) (idx remaining : Nat) (acc : Int × Int × Int)
    (newQ : List BlockStore) : Except TrackErr (Int × Int × Int × List BlockStore) :=
  match remaining with
  | 0 => .ok (acc.1, acc.2.1, acc.2.2, newQ)
  | remaining' + 1 =>
    let blockNumToFetch : Int := latestBlock - (idx : Int)
    match fetchBlockHashByNum cs remote blockNumToFetch with
    | .error e => .error e
    | .ok newHashForBlock =>
      let r := hashesOverlapIndexes cs readIndexDiff (idx : Int) blockNumToFetch newHashForBlock
      if r.1 then
        .ok (r.2.1, r.2.2.1, r.2.2.2, newQ)
      else
        readHashesLoop cs remote latestBlock readIndexDiff (idx + 1) remaining' r.2
          (newQ.set (cs.blocksToSave - 1 - idx)
            { Block := blockNumToFetch, Hash := newHashForBlock })

/-- `readHashes` of the source: run the scan from iteration 0 with a fresh
zero-initialised new queue of length `blocksToSave`. -/
def readHashes (cs : ChainTracker) (remote : Int → Except TrackErr String)
    (latestBlock readIndexDiff : Int) : Except TrackErr (Int × Int × Int × List BlockStore) :=
  readHashesLoop cs remote latestBlock readIndexDiff 0 cs.blocksToSave (0, 0, 0)
    (List.replicate cs.blocksToSave dfltBS)

/-- `replaceBlocksQueue` of the source: set the latest number, then either
splice `blocksQueue[start:end] ++ newBlocksQueue[newStart:]` (when
`newQueueStartIndex > 0`) or wholesale replace with the new queue. Returns
the new state with `(blocksCopied, blocksQueueLen, latestHash)`. -/
def replaceBlocksQueue (cs : ChainTracker) (latestBlock newQueueStartIndex blocksQueueStartIndex
    blocksQueueEndIndex : Int) (newBlocksQueue : List BlockStore) (blocksCopied : Int) :
    ChainTracker × Int × Nat × String :=
  let cs1 := { cs with latestBlockNum := latestBlock }
  let qc : List BlockStore × Int :=
    if newQueueStartIndex > 0 then
      (((cs1.blocksQueue.drop blocksQueueStartIndex.toNat).take
          (blocksQueueEndIndex - blocksQueueStartIndex).toNat) ++
        newBlocksQueue.drop newQueueStartIndex.toNat,
       blocksQueueEndIndex - blocksQueueStartIndex)
    else
      (newBlocksQueue, blocksCopied)
  let cs2 := { cs1 with blocksQueue := qc.1 }
  (cs2, qc.2, qc.1.length, (getLatestBlockStored cs2).Hash)

/-- `fetchAllPreviousBlocks` of the source: reject a latest block older than
the current one, run the scan, splice or replace, and fail (after the
replacement) when the resulting queue is shorter than `blocksToSave`. -/
def fetchAllPreviousBlocks (cs : ChainTracker) (remote : Int → Except TrackErr String)
    (latestBlock : Int) : ChainTracker × Except TrackErr String :=
  let currentLatestBlock := cs.latestBlockNum
  if latestBlock < currentLatestBlock then
    (cs, .error .olderThanCurrentState)
  else
    let readIndexDiff := latestBlock - currentLatestBlock
    match readHashes cs remote latestBlock readIndexDiff with
    | .error e => (cs, .error e)
    | .ok (blocksQueueStartIndex, blocksQueueEndIndex, newQueueStartIndex, newBlocksQueue) =>
      let r := replaceBlocksQueue cs latestBlock newQueueStartIndex blocksQueueStartIndex
        blocksQueueEndIndex newBlocksQueue (cs.blocksToSave : Int)
      if r.2.2.1 < cs.blocksToSave then
        (r.1, .error .notEnoughBlocks)
      else
        (r.1, .ok r.2.2.2)

/-- `gotNewBlock` of the source. -/
def gotNewBlock (cs : ChainTracker) (newLatestBlock : Int) : Bool :=
  decide (newLatestBlock > cs.latestBlockNum)

/-- `forkChanged` of the source: when no new block arrived compare the
fetched hash of the latest block to the saved one; when a new block arrived
compare the fetched hash of the previously saved latest record's number to
its saved hash. -/
def forkChanged (cs : ChainTracker) (remote : Int → Except TrackErr String)
    (newLatestBlock : Int) : Except TrackErr Bool :=
  if newLatestBlock = cs.latestBlockNum then
    match fetchBlockHashByNum cs remote newLatestBlock with
    | .error e => .error e
    | .ok hash => .ok (decide ((getLatestBlockStored cs).Hash ≠ hash))
  else
    let latestBlockSaved := getLatestBlockStored cs
    match fetchBlockHashByNum cs remote latestBlockSaved.Block with
    | .error e => .error e
    | .ok prevHash => .ok (decide (latestBlockSaved.Hash ≠ prevHash))

/-- A callback invocation recorded by one poll cycle. -/
inductive Event where
  | newLatest (block : Int) (hash : String) : Event
  | fork (block : Int) : Event
deriving DecidableEq, Repr

/-- The remote node as seen by one poll cycle: the latest block number it
reports and its hash oracle. -/
structure Remote where
  latestNum : Except TrackErr Int
  hashByNum : Int → Except TrackErr String

/-- The ascending integer list `[lo, lo+1, ..., hi]` (empty when `hi < lo`):
the catch-up iteration `for i := prev+1; i <= newLatestBlock; i++`. -/
def intRange (lo hi : Int) : List Int :=
  (List.range (hi + 1 - lo).toNat).map fun (k : Nat) => lo + (k : Int)

/-- `fetchAllPreviousBlocksIfNecessary` of the source: one poll cycle.
Fetch the latest number, run the detector, repair when a new block or a fork
was seen, and dispatch the callbacks (recorded as events): one new-latest
event per caught-up block, each carrying the post-repair tip hash, then at
most one fork event. -/
def fetchAllPreviousBlocksIfNecessary (cs : ChainTracker) (remote : Remote) :
    ChainTracker × List Event × Except TrackErr Unit :=
  match remote.latestNum with
  | .error e => (cs, [], .error e)
  | .ok newLatestBlock =>
    let gotNew := gotNewBlock cs newLatestBlock
    match forkChanged cs remote.hashByNum newLatestBlock with
    | .error e => (cs, [], .error e)
    | .ok forked =>
      if gotNew || forked then
        let prevLatest := cs.latestBlockNum
        match fetchAllPreviousBlocks cs remote.hashByNum newLatestBlock with
        | (cs2, .error e) => (cs2, [], .error e)
        | (cs2, .ok latestHash) =>
          let newEvents : List Event :=
            if gotNew && cs.newLatestCallback then
              (intRange (prevLatest + 1) newLatestBlock).map fun b => Event.newLatest b latestHash
            else []
          let forkEvents : List Event :=
            if forked && cs.forkCallback then [Event.fork newLatestBlock] else []
          (cs2, newEvents ++ forkEvents, .ok ())
      else
        (cs, [], .ok ())

/-- `BACKOFF_MAX_TIME = 10 * time.Minute` in nanoseconds. -/
def BACKOFF_MAX_TIME : Int := 10 * 60 * 1000000000

/-- Two's-complement wrap of a mathematical integer into int64, the type of
Go's `time.Duration` products. -/
def wrapInt64 (x : Int) : Int := (x + 2 ^ 63) % 2 ^ 64 - 2 ^ 63

/-- `exponentialBackoff` of the source: clamp the failure count at 10,
multiply the base by `1 << fails` in int64 arithmetic, cap at ten minutes. -/
def exponentialBackoff (baseTime : Int) (fails : Nat) : Int :=
  let fails2 := if fails > 10 then 10 else fails
  let maxIncrease := BACKOFF_MAX_TIME
  let backoff := wrapInt64 (baseTime * (2 ^ fails2 : Int))
  if backoff > maxIncrease then maxIncrease else backoff

deriving instance DecidableEq for Except

/-- The hash the remote oracle yields for block `b` through the tracker's
pre-check (arbitrary when the fetch fails); under `fetchOk` it names the
hash the scan actually reads. -/
def Hof (cs : ChainTracker) (remote : Int → Except TrackErr String) (b : Int) : String :=
  match fetchBlockHashByNum cs remote b with
  | .ok h => h
  | .error _ => ""

/-- The fetch of block `b` (through the pre-check) succeeds. -/
def fetchOk (cs : ChainTracker) (remote : Int → Except TrackErr String) (b : Int) : Prop :=
  fetchBlockHashByNum cs remote b = .ok (Hof cs remote b)

/-- The overlap decision the scan makes at iteration `j` when fetching block
`latestBlock - j` with read diff `rd`. -/
def ovlG (cs : ChainTracker) (remote : Int → Except TrackErr String) (latestBlock rd : Int)
    (j : Nat) : Bool × Int × Int × Int :=
  hashesOverlapIndexes cs rd (j : Int) (latestBlock - (j : Int))
    (Hof cs remote (latestBlock - (j : Int)))

/-- Write the records of scan iterations `j, j+1, ..., j+cnt-1` into the new
queue, each at position `blocksToSave - 1 - iteration`. -/
def fillRange (cs : ChainTracker) (remote : Int → Except TrackErr String) (latestBlock : Int)
    (j cnt : Nat) (q : List BlockStore) : List BlockStore :=
  match cnt with
  | 0 => q
  | cnt' + 1 =>
    fillRange cs remote latestBlock (j + 1) cnt'
      (q.set (cs.blocksToSave - 1 - j)
        { Block := latestBlock - (j : Int), Hash := Hof cs remote (latestBlock - (j : Int)) })

/-- The scan's new queue after `i` completed no-overlap iterations. -/
def newQueueAt (cs : ChainTracker) (remote : Int → Except TrackErr String) (latestBlock : Int)
    (i : Nat) : List BlockStore :=
  fillRange cs remote latestBlock 0 i (List.replicate cs.blocksToSave dfltBS)

/-- `read_diff`: how far the freshly fetched latest is ahead of the saved one. -/
def readDiffOf (cs : ChainTracker) (latestBlock : Int) : Int := latestBlock - cs.latestBlockNum

/-- The spec's `existing_idx = (len - 1 + read_diff) - i`: the existing
window position the scan compares against at iteration `i`. -/
def existingIdx (cs : ChainTracker) (latestBlock : Int) (i : Nat) : Int :=
  (cs.blocksQueue.length : Int) - 1 + readDiffOf cs latestBlock - (i : Int)

theorem hof_of_ok {cs : ChainTracker} {remote : Int → Except TrackErr String} {b : Int}
    {h : String} (he : fetchBlockHashByNum cs remote b = .ok h) :
    Hof cs remote b = h ∧ fetchOk cs remote b := by
  have h1 : Hof cs remote b = h := by simp [Hof, he]
  exact ⟨h1, by simp [fetchOk, he, h1]⟩

theorem fetch_ok_or_error (cs : ChainTracker) (remote : Int → Except TrackErr String) (b : Int) :
    fetchOk cs remote b ∨ ∃ e, fetchBlockHashByNum cs remote b = .error e := by
  unfold fetchOk Hof
  cases hres : fetchBlockHashByNum cs remote b with
  | ok h => exact Or.inl rfl
  | error e => exact Or.inr ⟨e, rfl⟩

theorem ovl_not_found_eq {cs : ChainTracker} {rd j f : Int} {h : String}
    (hov : (hashesOverlapIndexes cs rd j f h).1 = false) :
    hashesOverlapIndexes cs rd j f h = (false, 0, 0, 0) := by
  simp only [hashesOverlapIndexes] at hov ⊢
  split_ifs at hov ⊢ <;> simp_all

theorem ovl_far_not_found (cs : ChainTracker) {rd : Int} (j f : Int) (h : String)
    (hfar : (cs.blocksQueue.length : Int) ≤ rd) :
    hashesOverlapIndexes cs rd j f h = (false, 0, 0, 0) := by
  unfold hashesOverlapIndexes
  rw [if_pos hfar]

theorem ovl_found_spec {cs : ChainTracker} {rd j f : Int} {h : String}
    (hov : (hashesOverlapIndexes cs rd j f h).1 = true) :
    rd < (cs.blocksQueue.length : Int) ∧
    0 < (cs.blocksQueue.length : Int) - 1 + rd - j ∧
    (cs.blocksQueue.length : Int) - 1 + rd - j ≤ (cs.blocksQueue.length : Int) - 1 ∧
    (cs.blocksQueue.getD ((cs.blocksQueue.length : Int) - 1 + rd - j).toNat dfltBS).Block = f ∧
    (cs.blocksQueue.getD ((cs.blocksQueue.length : Int) - 1 + rd - j).toNat dfltBS).Hash = h ∧
    (cs.blocksToSave : Int) - 1 - j ≤ ((cs.blocksQueue.length : Int) - 1 + rd - j) + 1 ∧
    rd ≤ ((cs.blocksQueue.length : Int) - 1 + rd - j) + 1 ∧
    hashesOverlapIndexes cs rd j f h =
      (true, rd, ((cs.blocksQueue.length : Int) - 1 + rd - j) + 1,
        ((cs.blocksQueue.length : Int) - 1 + rd - j) + 1 - rd) := by
  simp only [hashesOverlapIndexes] at hov ⊢
  split_ifs at hov ⊢ with h1 h2 h3 h4 h5 <;> simp_all

theorem loop_stop (cs : ChainTracker) (remote : Int → Except TrackErr String) (lB rd : Int)
    (i : Nat) (hfet : fetchOk cs remote (lB - (i : Int)))
    (hov : (ovlG cs remote lB rd i).1 = true) :
    ∀ (cnt idx : Nat) (acc : Int × Int × Int) (q : List BlockStore), idx ≤ i → i < idx + cnt →
    (∀ j, idx ≤ j → j < i →
      fetchOk cs remote (lB - (j : Int)) ∧ (ovlG cs remote lB rd j).1 = false) →
    readHashesLoop cs remote lB rd idx cnt acc q =
      .ok ((ovlG cs remote lB rd i).2.1, (ovlG cs remote lB rd i).2.2.1,
        (ovlG cs remote lB rd i).2.2.2, fillRange cs remote lB idx (i - idx) q) := by
  intro cnt
  induction cnt with
  | zero => intro idx acc q h1 h2 _; omega
  | succ cnt ih =>
    intro idx acc q h1 h2 hscan
    by_cases hii : idx = i
    · subst hii
      unfold fetchOk at hfet
      simp only [ovlG] at hov
      simp only [readHashesLoop, hfet, hov, if_true, Nat.sub_self, fillRange, ovlG]
    · have hlt : idx < i := by omega
      obtain ⟨hf, hnov⟩ := hscan idx (le_refl idx) hlt
      unfold fetchOk at hf
      simp only [ovlG] at hnov
      simp only [readHashesLoop, hf, hnov, if_false, Bool.false_eq_true]
      rw [ih (idx + 1) _ _ (by omega) (by omega)
        (fun j hj1 hj2 => hscan j (by omega) hj2)]
      rw [show i - idx = (i - (idx + 1)) + 1 by omega]
      simp only [fillRange]

theorem loop_exhaust (cs : ChainTracker) (remote : Int → Except TrackErr String) (lB rd : Int) :
    ∀ (cnt idx : Nat) (acc : Int × Int × Int) (q : List BlockStore),
    (∀ j, idx ≤ j → j < idx + (cnt + 1) →
      fetchOk cs remote (lB - (j : Int)) ∧ (ovlG cs remote lB rd j).1 = false) →
    readHashesLoop cs remote lB rd idx (cnt + 1) acc q =
      .ok (0, 0, 0, fillRange cs remote lB idx (cnt + 1) q) := by
  intro cnt
  induction cnt with
  | zero =>
    intro idx acc q hscan
    obtain ⟨hf, hnov⟩ := hscan idx (le_refl idx) (by omega)
    unfold fetchOk at hf
    have hz := ovl_not_found_eq (by simpa [ovlG] using hnov)
    simp only [ovlG] at hnov
    simp only [readHashesLoop, hf, hnov, if_false, Bool.false_eq_true, fillRange]
    rw [show (hashesOverlapIndexes cs rd (idx : Int) (lB - (idx : Int))
      (Hof cs remote (lB - (idx : Int)))).2 = (0, 0, 0) by rw [hz]]
  | succ cnt ih =>
    intro idx acc q hscan
    obtain ⟨hf, hnov⟩ := hscan idx (le_refl idx) (by omega)
    unfold fetchOk at hf
    simp only [ovlG] at hnov
    rw [readHashesLoop]
    simp only [hf, hnov, if_false, Bool.false_eq_true]
    rw [ih (idx + 1) _ _ (fun j hj1 hj2 => hscan j (by omega) (by omega))]
    conv_rhs => rw [fillRange]

theorem loop_error (cs : ChainTracker) (remote : Int → Except TrackErr String) (lB rd : Int)
    (i : Nat) (e : TrackErr) (herr : fetchBlockHashByNum cs remote (lB - (i : Int)) = .error e) :
    ∀ (cnt idx : Nat) (acc : Int × Int × Int) (q : List BlockStore), idx ≤ i → i < idx + cnt →
    (∀ j, idx ≤ j → j < i →
      fetchOk cs remote (lB - (j : Int)) ∧ (ovlG cs remote lB rd j).1 = false) →
    readHashesLoop cs remote lB rd idx cnt acc q = .error e := by
  intro cnt
  induction cnt with
  | zero => intro idx acc q h1 h2 _; omega
  | succ cnt ih =>
    intro idx acc q h1 h2 hscan
    by_cases hii : idx = i
    · subst hii
      simp only [readHashesLoop, herr]
    · have hlt : idx < i := by omega
      obtain ⟨hf, hnov⟩ := hscan idx (le_refl idx) hlt
      unfold fetchOk at hf
      simp only [ovlG] at hnov
      simp only [readHashesLoop, hf, hnov, if_false, Bool.false_eq_true]
      exact ih (idx + 1) _ _ (by omega) (by omega) (fun j hj1 hj2 => hscan j (by omega) hj2)

theorem loop_inv (cs : ChainTracker) (remote : Int → Except TrackErr String) (lB rd : Int) :
    ∀ (cnt idx : Nat) (acc : Int × Int × Int) (q : List BlockStore) (s e n : Int)
      (q' : List BlockStore),
    readHashesLoop cs remote lB rd idx cnt acc q = .ok (s, e, n, q') →
    ∃ i, idx ≤ i ∧ i ≤ idx + cnt ∧
      (∀ j, idx ≤ j → j < i →
        fetchOk cs remote (lB - (j : Int)) ∧ (ovlG cs remote lB rd j).1 = false) ∧
      ((i < idx + cnt ∧ fetchOk cs remote (lB - (i : Int)) ∧ (ovlG cs remote lB rd i).1 = true ∧
         (s, e, n) = (ovlG cs remote lB rd i).2 ∧
         q' = fillRange cs remote lB idx (i - idx) q) ∨
       (i = idx + cnt ∧ q' = fillRange cs remote lB idx cnt q ∧
         ((cnt = 0 ∧ (s, e, n) = acc) ∨ (0 < cnt ∧ (s, e, n) = (0, 0, 0))))) := by
  intro cnt
  induction cnt with
  | zero =>
    intro idx acc q s e n q' hok
    simp only [readHashesLoop, Except.ok.injEq, Prod.mk.injEq] at hok
    refine ⟨idx, le_refl idx, by omega, fun j hj1 hj2 => by omega, Or.inr ⟨by omega, ?_, ?_⟩⟩
    · simp only [fillRange]
      exact hok.2.2.2.symm
    · exact Or.inl ⟨rfl, by rw [← hok.1, ← hok.2.1, ← hok.2.2.1]⟩
  | succ cnt ih =>
    intro idx acc q s e n q' hok
    rw [readHashesLoop] at hok
    cases hfr : fetchBlockHashByNum cs remote (lB - (idx : Int)) with
    | error e2 => rw [hfr] at hok; simp at hok
    | ok h =>
      obtain ⟨hHof, hfok⟩ := hof_of_ok hfr
      rw [hfr] at hok
      simp only at hok
      by_cases hb : (hashesOverlapIndexes cs rd (idx : Int) (lB - (idx : Int)) h).1 = true
      · rw [if_pos hb] at hok
        simp only [Except.ok.injEq, Prod.mk.injEq] at hok
        refine ⟨idx, le_refl idx, by omega, fun j hj1 hj2 => by omega,
          Or.inl ⟨by omega, hfok, ?_, ?_, ?_⟩⟩
        · simpa [ovlG, hHof] using hb
        · simp only [ovlG, hHof]
          rw [← hok.1, ← hok.2.1, ← hok.2.2.1]
        · simp only [Nat.sub_self, fillRange]
          exact hok.2.2.2.symm
      · rw [if_neg hb] at hok
        obtain ⟨i, hi1, hi2, hiscan, hicase⟩ := ih (idx + 1) _ _ s e n q' hok
        have hovFalse : (ovlG cs remote lB rd idx).1 = false := by
          simp only [ovlG, hHof]
          exact Bool.not_eq_true _ ▸ hb
        refine ⟨i, by omega, by omega, fun j hj1 hj2 => ?_, ?_⟩
        · by_cases hji : j = idx
          · subst hji; exact ⟨hfok, hovFalse⟩
          · exact hiscan j (by omega) hj2
        · rcases hicase with ⟨hlt, hfi, hoi, hsen, hq⟩ | ⟨heq, hq, hinner⟩
          · refine Or.inl ⟨by omega, hfi, hoi, hsen, ?_⟩
            rw [hq, show i - idx = (i - (idx + 1)) + 1 by omega]
            conv_rhs => rw [fillRange]
            rw [hHof]
          · refine Or.inr ⟨by omega, ?_, ?_⟩
            · rw [hq]
              conv_rhs => rw [fillRange]
              rw [hHof]
            · rcases hinner with ⟨hc0, hsen⟩ | ⟨hcpos, hsen⟩
              · subst hc0
                have hz := ovl_not_found_eq (by simpa using hb)
                refine Or.inr ⟨by omega, ?_⟩
                rw [hsen, hz]
              · exact Or.inr ⟨by omega, hsen⟩

theorem fillRange_length (cs : ChainTracker) (remote : Int → Except TrackErr String) (lB : Int) :
    ∀ (cnt j : Nat) (q : List BlockStore), (fillRange cs remote lB j cnt q).length = q.length := by
  intro cnt
  induction cnt with
  | zero => intro j q; rfl
  | succ cnt ih => intro j q; rw [fillRange, ih, List.length_set]

theorem getD_replicate_bs (nn p : Nat) (a : BlockStore) :
    (List.replicate nn a).getD p dfltBS = if p < nn then a else dfltBS := by
  rw [List.getD_eq_getElem?_getD, List.getElem?_replicate]
  split_ifs <;> rfl

theorem fillRange_getD (cs : ChainTracker) (remote : Int → Except TrackErr String) (lB : Int) :
    ∀ (cnt j : Nat) (q : List BlockStore) (p : Nat),
    j + cnt ≤ cs.blocksToSave → q.length = cs.blocksToSave →
    (fillRange cs remote lB j cnt q).getD p dfltBS =
      if cs.blocksToSave ≤ p + j + cnt ∧ p + j < cs.blocksToSave then
        { Block := lB - ((cs.blocksToSave - 1 - p : Nat) : Int),
          Hash := Hof cs remote (lB - ((cs.blocksToSave - 1 - p : Nat) : Int)) }
      else q.getD p dfltBS := by
  intro cnt
  induction cnt with
  | zero =>
    intro j q p hle hlen
    rw [if_neg (by omega)]
    rfl
  | succ cnt ih =>
    intro j q p hle hlen
    rw [fillRange, ih (j + 1) _ p (by omega) (by rw [List.length_set]; exact hlen)]
    by_cases hc1 : cs.blocksToSave ≤ p + (j + 1) + cnt ∧ p + (j + 1) < cs.blocksToSave
    · rw [if_pos hc1, if_pos (by omega)]
    · rw [if_neg hc1]
      by_cases hc2 : cs.blocksToSave ≤ p + j + (cnt + 1) ∧ p + j < cs.blocksToSave
      · rw [if_pos hc2]
        have hidx : cs.blocksToSave - 1 - j = p := by omega
        have hj : cs.blocksToSave - 1 - p = j := by omega
        rw [hidx, List.getD_eq_getElem?_getD]
        have hplen : p < q.length := by omega
        simp [List.getElem?_set_self, hplen, hj]
      · rw [if_neg hc2]
        have hne : cs.blocksToSave - 1 - j ≠ p := by omega
        simp [List.getD_eq_getElem?_getD, List.getElem?_set_ne hne]

theorem newQueueAt_length (cs : ChainTracker) (remote : Int → Except TrackErr String) (lB : Int)
    (i : Nat) : (newQueueAt cs remote lB i).length = cs.blocksToSave := by
  rw [newQueueAt, fillRange_length, List.length_replicate]

theorem newQueueAt_getD (cs : ChainTracker) (remote : Int → Except TrackErr String) (lB : Int)
    (i : Nat) (p : Nat) (hi : i ≤ cs.blocksToSave) :
    (newQueueAt cs remote lB i).getD p dfltBS =
      if cs.blocksToSave ≤ p + i ∧ p < cs.blocksToSave then
        { Block := lB - ((cs.blocksToSave - 1 - p : Nat) : Int),
          Hash := Hof cs remote (lB - ((cs.blocksToSave - 1 - p : Nat) : Int)) }
      else dfltBS := by
  rw [newQueueAt, fillRange_getD cs remote lB i 0 _ p (by omega) (List.length_replicate _ _)]
  by_cases hc : cs.blocksToSave ≤ p + 0 + i ∧ p + 0 < cs.blocksToSave
  · rw [if_pos hc, if_pos (by omega)]
  · rw [if_neg hc, if_neg (by omega), getD_replicate_bs]
    split_ifs <;> rfl

theorem readHashes_exhaust (cs : ChainTracker) (remote : Int → Except TrackErr String)
    (lB rd : Int)
    (hscan : ∀ j, j < cs.blocksToSave →
      fetchOk cs remote (lB - (j : Int)) ∧ (ovlG cs remote lB rd j).1 = false) :
    readHashes cs remote lB rd = .ok (0, 0, 0, newQueueAt cs remote lB cs.blocksToSave) := by
  rw [readHashes, newQueueAt]
  by_cases h0 : cs.blocksToSave = 0
  · rw [h0]
    simp [readHashesLoop, fillRange]
  · obtain ⟨k, hk⟩ := Nat.exists_eq_succ_of_ne_zero h0
    rw [hk]
    exact loop_exhaust cs remote lB rd k 0 (0, 0, 0) _
      (fun j hj1 hj2 => hscan j (by omega))

theorem readHashes_stop (cs : ChainTracker) (remote : Int → Except TrackErr String)
    (lB rd : Int) (i : Nat) (hi : i < cs.blocksToSave)
    (hscan : ∀ j, j < i →
      fetchOk cs remote (lB - (j : Int)) ∧ (ovlG cs remote lB rd j).1 = false)
    (hfet : fetchOk cs remote (lB - (i : Int)))
    (hov : (ovlG cs remote lB rd i).1 = true) :
    readHashes cs remote lB rd =
      .ok ((ovlG cs remote lB rd i).2.1, (ovlG cs remote lB rd i).2.2.1,
        (ovlG cs remote lB rd i).2.2.2, newQueueAt cs remote lB i) := by
  rw [readHashes, newQueueAt]
  have := loop_stop cs remote lB rd i hfet hov cs.blocksToSave 0 (0, 0, 0)
    (List.replicate cs.blocksToSave dfltBS) (by omega) (by omega)
    (fun j hj1 hj2 => hscan j hj2)
  simpa using this

theorem repair_of_ok_pos (cs : ChainTracker) (remote : Int → Except TrackErr String)
    (lB s e n : Int) (q' : List BlockStore)
    (hmono : cs.latestBlockNum ≤ lB)
    (hrh : readHashes cs remote lB (lB - cs.latestBlockNum) = .ok (s, e, n, q'))
    (hn : 0 < n) :
    (fetchAllPreviousBlocks cs remote lB).1 =
      { cs with
        latestBlockNum := lB
        blocksQueue := (cs.blocksQueue.drop s.toNat).take (e - s).toNat ++ q'.drop n.toNat } ∧
    (fetchAllPreviousBlocks cs remote lB).2 =
      (if ((cs.blocksQueue.drop s.toNat).take (e - s).toNat ++ q'.drop n.toNat).length <
          cs.blocksToSave then
        .error .notEnoughBlocks
      else
        .ok (getLatestBlockStored (fetchAllPreviousBlocks cs remote lB).1).Hash) := by
  unfold fetchAllPreviousBlocks
  rw [if_neg (by omega)]
  simp only [hrh]
  simp only [replaceBlocksQueue, if_pos hn]
  constructor
  · split_ifs <;> rfl
  · split_ifs <;> rfl

theorem repair_of_ok_zero (cs : ChainTracker) (remote : Int → Except TrackErr String)
    (lB s e n : Int) (q' : List BlockStore)
    (hmono : cs.latestBlockNum ≤ lB)
    (hrh : readHashes cs remote lB (lB - cs.latestBlockNum) = .ok (s, e, n, q'))
    (hn : ¬ 0 < n) :
    (fetchAllPreviousBlocks cs remote lB).1 = { cs with latestBlockNum := lB, blocksQueue := q' } ∧
    (fetchAllPreviousBlocks cs remote lB).2 =
      (if q'.length < cs.blocksToSave then
        .error .notEnoughBlocks
      else
        .ok (getLatestBlockStored (fetchAllPreviousBlocks cs remote lB).1).Hash) := by
  unfold fetchAllPreviousBlocks
  rw [if_neg (by omega)]
  simp only [hrh]
  simp only [replaceBlocksQueue, if_neg hn]
  constructor
  · split_ifs <;> rfl
  · split_ifs <;> rfl

theorem getLatestBlockStored_getD (cs : ChainTracker) (hne : cs.blocksQueue ≠ []) :
    getLatestBlockStored cs = cs.blocksQueue.getD (cs.blocksQueue.length - 1) dfltBS := by
  unfold getLatestBlockStored
  rw [List.getLast?_eq_getElem?, List.getD_eq_getElem?_getD]
  have hlen : 0 < cs.blocksQueue.length := List.length_pos.mpr hne
  cases hq : cs.blocksQueue[cs.blocksQueue.length - 1]? with
  | none => exact absurd (List.getElem?_eq_none_iff.mp hq) (by omega)
  | some b => simp [hq]

theorem spliced_getD (q : List BlockStore) (s e n : Int) (q' : List BlockStore) (p : Nat)
    (hs : 0 ≤ s) (hse : s ≤ e) (he : e ≤ (q.length : Int)) (hn : n = e - s) :
    (((q.drop s.toNat).take (e - s).toNat) ++ q'.drop n.toNat).getD p dfltBS =
      if (p : Int) < e - s then q.getD (s.toNat + p) dfltBS
      else q'.getD (n.toNat + (p - (e - s).toNat)) dfltBS := by
  rw [List.getD_eq_getElem?_getD, List.getElem?_append]
  have hAlen : ((q.drop s.toNat).take (e - s).toNat).length = (e - s).toNat := by
    rw [List.length_take, List.length_drop]; omega
  by_cases hp : (p : Int) < e - s
  · rw [if_pos hp, if_pos (by omega : p < ((q.drop s.toNat).take (e - s).toNat).length)]
    rw [List.getElem?_take, if_pos (by omega), List.getElem?_drop,
      List.getD_eq_getElem?_getD]
  · rw [if_neg hp, if_neg (by omega : ¬ p < ((q.drop s.toNat).take (e - s).toNat).length)]
    rw [List.getElem?_drop, hAlen, List.getD_eq_getElem?_getD]

theorem repair_stop (cs : ChainTracker) (remote : Int → Except TrackErr String) (lB : Int)
    (i : Nat)
    (hlen : cs.blocksQueue.length ≤ cs.blocksToSave)
    (hmono : cs.latestBlockNum ≤ lB)
    (hi : i < cs.blocksToSave)
    (hscan : ∀ j, j < i → fetchOk cs remote (lB - (j : Int)) ∧
      (ovlG cs remote lB (lB - cs.latestBlockNum) j).1 = false)
    (hfet : fetchOk cs remote (lB - (i : Int)))
    (hov : (ovlG cs remote lB (lB - cs.latestBlockNum) i).1 = true) :
    (fetchAllPreviousBlocks cs remote lB).1.blocksQueue =
        (cs.blocksQueue.drop (lB - cs.latestBlockNum).toNat).take
            (existingIdx cs lB i + 1 - (lB - cs.latestBlockNum)).toNat ++
          (newQueueAt cs remote lB i).drop
            (existingIdx cs lB i + 1 - (lB - cs.latestBlockNum)).toNat ∧
    (fetchAllPreviousBlocks cs remote lB).1.blocksQueue.length = cs.blocksToSave ∧
    (fetchAllPreviousBlocks cs remote lB).1.latestBlockNum = lB ∧
    (fetchAllPreviousBlocks cs remote lB).1.blocksToSave = cs.blocksToSave ∧
    (fetchAllPreviousBlocks cs remote lB).2 =
      .ok (getLatestBlockStored (fetchAllPreviousBlocks cs remote lB).1).Hash := by
  have hovRaw : (hashesOverlapIndexes cs (lB - cs.latestBlockNum) (i : Int) (lB - (i : Int))
      (Hof cs remote (lB - (i : Int)))).1 = true := by simpa [ovlG] using hov
  obtain ⟨h1, h2, h3, h4, h5, h6, h7, h8⟩ := ovl_found_spec hovRaw
  have hrh := readHashes_stop cs remote lB (lB - cs.latestBlockNum) i hi hscan hfet hov
  have htup : (ovlG cs remote lB (lB - cs.latestBlockNum) i).2 =
      (lB - cs.latestBlockNum, existingIdx cs lB i + 1,
        existingIdx cs lB i + 1 - (lB - cs.latestBlockNum)) := by
    simp only [ovlG, existingIdx, readDiffOf, h8]
  rw [htup] at hrh
  dsimp only at hrh
  have hEI : existingIdx cs lB i = (cs.blocksQueue.length : Int) - 1 +
      (lB - cs.latestBlockNum) - (i : Int) := by
    simp only [existingIdx, readDiffOf]
  by_cases hnpos : 0 < existingIdx cs lB i + 1 - (lB - cs.latestBlockNum)
  · obtain ⟨hq, hv⟩ := repair_of_ok_pos cs remote lB _ _ _ _ hmono hrh hnpos
    have hlenSP : ((cs.blocksQueue.drop (lB - cs.latestBlockNum).toNat).take
        (existingIdx cs lB i + 1 - (lB - cs.latestBlockNum)).toNat ++
        (newQueueAt cs remote lB i).drop
          (existingIdx cs lB i + 1 - (lB - cs.latestBlockNum)).toNat).length =
        cs.blocksToSave := by
      rw [List.length_append, List.length_take, List.length_drop, List.length_drop,
        newQueueAt_length]
      omega
    refine ⟨by rw [hq], by rw [hq]; exact hlenSP, by rw [hq], by rw [hq], ?_⟩
    rw [hv, if_neg (by rw [hlenSP]; omega)]
  · obtain ⟨hq, hv⟩ := repair_of_ok_zero cs remote lB _ _ _ _ hmono hrh hnpos
    have hn0 : existingIdx cs lB i + 1 - (lB - cs.latestBlockNum) = 0 := by omega
    have hzformula : (cs.blocksQueue.drop (lB - cs.latestBlockNum).toNat).take
        (existingIdx cs lB i + 1 - (lB - cs.latestBlockNum)).toNat ++
        (newQueueAt cs remote lB i).drop
          (existingIdx cs lB i + 1 - (lB - cs.latestBlockNum)).toNat =
        newQueueAt cs remote lB i := by
      rw [hn0]
      simp
    refine ⟨by rw [hq, hzformula], by rw [hq]; exact newQueueAt_length cs remote lB i,
      by rw [hq], by rw [hq], ?_⟩
    rw [hv, if_neg (by rw [newQueueAt_length]; omega)]

theorem repair_exhaust (cs : ChainTracker) (remote : Int → Except TrackErr String) (lB : Int)
    (hmono : cs.latestBlockNum ≤ lB)
    (hscan : ∀ j, j < cs.blocksToSave → fetchOk cs remote (lB - (j : Int)) ∧
      (ovlG cs remote lB (lB - cs.latestBlockNum) j).1 = false) :
    (fetchAllPreviousBlocks cs remote lB).1 =
      { cs with latestBlockNum := lB, blocksQueue := newQueueAt cs remote lB cs.blocksToSave } ∧
    (fetchAllPreviousBlocks cs remote lB).2 =
      .ok (getLatestBlockStored (fetchAllPreviousBlocks cs remote lB).1).Hash := by
  have hrh := readHashes_exhaust cs remote lB (lB - cs.latestBlockNum) hscan
  obtain ⟨hq, hv⟩ := repair_of_ok_zero cs remote lB 0 0 0 _ hmono hrh (by omega)
  exact ⟨hq, by rw [hv, if_neg (by rw [newQueueAt_length]; omega)]⟩

/-- The window invariant of the spec (§3, §8): the window holds exactly
`blocksToSave` records and the record at position `k` carries block number
`latestBlockNum - (len - 1 - k)` (contiguous ascending, newest = latest). -/
def WindowInv (cs : ChainTracker) : Prop :=
  cs.blocksQueue.length = cs.blocksToSave ∧
  ∀ k, k < cs.blocksQueue.length →
    (cs.blocksQueue.getD k dfltBS).Block =
      cs.latestBlockNum - ((cs.blocksQueue.length : Int) - 1 - (k : Int))

instance (cs : ChainTracker) : Decidable (WindowInv cs) := by
  unfold WindowInv
  infer_instance

theorem winInv_after_success (cs : ChainTracker) (remote : Int → Except TrackErr String)
    (lB : Int) (hsh : String)
    (hprev : cs.blocksQueue = [] ∨ WindowInv cs)
    (hok : (fetchAllPreviousBlocks cs remote lB).2 = .ok hsh) :
    WindowInv (fetchAllPreviousBlocks cs remote lB).1 := by
  by_cases hlt : lB < cs.latestBlockNum
  · exfalso
    unfold fetchAllPreviousBlocks at hok
    rw [if_pos hlt] at hok
    simp at hok
  have hmono : cs.latestBlockNum ≤ lB := by omega
  cases hrh : readHashes cs remote lB (lB - cs.latestBlockNum) with
  | error e =>
    exfalso
    unfold fetchAllPreviousBlocks at hok
    rw [if_neg hlt] at hok
    simp only [hrh] at hok
    exact Except.noConfusion hok
  | ok v =>
    obtain ⟨s, e2, n, q'⟩ := v
    rw [readHashes] at hrh
    obtain ⟨i, hi0, hile, hiscan, hicase⟩ :=
      loop_inv cs remote lB (lB - cs.latestBlockNum) cs.blocksToSave 0 (0, 0, 0)
        (List.replicate cs.blocksToSave dfltBS) s e2 n q' hrh
    rcases hicase with ⟨hilt, hifet, hiov, hsen, hq'⟩ | ⟨hieq, hq', hsen⟩
    · -- the scan stopped at an accepted overlap anchor at iteration i
      have hscan' : ∀ j, j < i → fetchOk cs remote (lB - (j : Int)) ∧
          (ovlG cs remote lB (lB - cs.latestBlockNum) j).1 = false :=
        fun j hj => hiscan j (by omega) hj
      have hovRaw : (hashesOverlapIndexes cs (lB - cs.latestBlockNum) (i : Int)
          (lB - (i : Int)) (Hof cs remote (lB - (i : Int)))).1 = true := by
        simpa [ovlG] using hiov
      obtain ⟨h1, h2, h3, h4, h5, h6, h7, h8⟩ := ovl_found_spec hovRaw
      have hwin : WindowInv cs := by
        rcases hprev with hemp | hwin
        · exfalso
          rw [hemp] at h1
          simp at h1
          omega
        · exact hwin
      have hlenle : cs.blocksQueue.length ≤ cs.blocksToSave := le_of_eq hwin.1
      obtain ⟨hqf, hlenf, hlatf, hbtsf, _⟩ :=
        repair_stop cs remote lB i hlenle hmono (by omega) hscan' hifet hiov
      have hEI : existingIdx cs lB i = (cs.blocksQueue.length : Int) - 1 +
          (lB - cs.latestBlockNum) - (i : Int) := by
        simp only [existingIdx, readDiffOf]
      have hSPlen := hlenf
      rw [hqf] at hSPlen
      constructor
      · rw [hlenf, hbtsf]
      · intro k hk
        rw [hlenf] at hk
        rw [hqf, hlatf, hSPlen]
        rw [spliced_getD cs.blocksQueue (lB - cs.latestBlockNum) (existingIdx cs lB i + 1)
          (existingIdx cs lB i + 1 - (lB - cs.latestBlockNum)) (newQueueAt cs remote lB i) k
          (by omega) (by omega) (by omega) rfl]
        split_ifs with hcase
        · have hkin : (lB - cs.latestBlockNum).toNat + k < cs.blocksQueue.length := by omega
          have hval := hwin.2 ((lB - cs.latestBlockNum).toNat + k) hkin
          rw [hval]
          have hlenn := hwin.1
          omega
        · rw [show (existingIdx cs lB i + 1 - (lB - cs.latestBlockNum)).toNat +
            (k - (existingIdx cs lB i + 1 - (lB - cs.latestBlockNum)).toNat) = k by omega]
          rw [newQueueAt_getD cs remote lB i k (by omega)]
          have hlenn := hwin.1
          rw [if_pos ⟨by omega, by omega⟩]
          dsimp only
          omega
    · -- the scan exhausted all blocksToSave iterations without an overlap
      have hscan' : ∀ j, j < cs.blocksToSave → fetchOk cs remote (lB - (j : Int)) ∧
          (ovlG cs remote lB (lB - cs.latestBlockNum) j).1 = false :=
        fun j hj => hiscan j (by omega) (by omega)
      obtain ⟨hq, _⟩ := repair_exhaust cs remote lB hmono hscan'
      rw [hq]
      constructor
      · simp [newQueueAt_length]
      · intro k hk
        simp only [newQueueAt_length] at hk
        simp only [newQueueAt_length]
        rw [newQueueAt_getD cs remote lB cs.blocksToSave k (le_refl _)]
        rw [if_pos ⟨by omega, by omega⟩]
        dsimp only
        omega

theorem winInv_latest_eq (cs : ChainTracker) (hw : WindowInv cs) (hne : cs.blocksQueue ≠ []) :
    (getLatestBlockStored cs).Block = cs.latestBlockNum := by
  rw [getLatestBlockStored_getD cs hne]
  have hlen : 0 < cs.blocksQueue.length := List.length_pos.mpr hne
  rw [hw.2 (cs.blocksQueue.length - 1) (by omega)]
  omega

theorem winInv_steps (cs : ChainTracker) (hw : WindowInv cs) :
    ∀ k, k + 1 < cs.blocksQueue.length →
      (cs.blocksQueue.getD (k + 1) dfltBS).Block =
        (cs.blocksQueue.getD k dfltBS).Block + 1 := by
  intro k hk
  rw [hw.2 (k + 1) (by omega), hw.2 k (by omega)]
  push_cast
  ring

theorem repair_preserves_capacity (cs : ChainTracker) (remote : Int → Except TrackErr String)
    (lB : Int) :
    (fetchAllPreviousBlocks cs remote lB).1.blocksToSave = cs.blocksToSave := by
  unfold fetchAllPreviousBlocks
  by_cases h : lB < cs.latestBlockNum
  · rw [if_pos h]
  · rw [if_neg h]
    cases hrh : readHashes cs remote lB (lB - cs.latestBlockNum) with
    | error e => simp [hrh]
    | ok v =>
      obtain ⟨s, e, n, q⟩ := v
      simp only [hrh, replaceBlocksQueue]
      split_ifs <;> rfl

/-- Claim C3: after bootstrap completes (repair from the empty initial
window) and after every successful repair from an invariant state, the
window length equals `blocksToSave`, its block numbers increase with step
exactly 1 from index 0 (oldest) to the newest, and the atomic latest block
number equals the newest window record's number. -/
theorem claim_C3 (cs : ChainTracker) (remote : Int → Except TrackErr String) (lB : Int)
    (hsh : String)
    (hpos : 0 < cs.blocksToSave)
    (hprev : cs.blocksQueue = [] ∨ WindowInv cs)
    (hok : (fetchAllPreviousBlocks cs remote lB).2 = .ok hsh) :
    WindowInv (fetchAllPreviousBlocks cs remote lB).1 ∧
    (fetchAllPreviousBlocks cs remote lB).1.blocksQueue.length = cs.blocksToSave ∧
    (∀ k, k + 1 < (fetchAllPreviousBlocks cs remote lB).1.blocksQueue.length →
      ((fetchAllPreviousBlocks cs remote lB).1.blocksQueue.getD (k + 1) dfltBS).Block =
        ((fetchAllPreviousBlocks cs remote lB).1.blocksQueue.getD k dfltBS).Block + 1) ∧
    (getLatestBlockStored (fetchAllPreviousBlocks cs remote lB).1).Block =
      (fetchAllPreviousBlocks cs remote lB).1.latestBlockNum := by
  have hw := winInv_after_success cs remote lB hsh hprev hok
  have hcap := repair_preserves_capacity cs remote lB
  have hlen : (fetchAllPreviousBlocks cs remote lB).1.blocksQueue.length = cs.blocksToSave := by
    rw [hw.1, hcap]
  refine ⟨hw, hlen, winInv_steps _ hw, ?_⟩
  exact winInv_latest_eq _ hw (List.ne_nil_of_length_pos (by omega))

/-- A bootstrap tracker state: empty window, latest number 0. -/
def csBoot : ChainTracker :=
  { blocksToSave := 2, latestBlockNum := 0, blocksQueue := [], serverBlockMemory := 10,
    forkCallback := true, newLatestCallback := true }

/-- A small remote hash oracle used by the concrete test instances. -/
def rmBoot : Int → Except TrackErr String := fun b =>
  if b = 5 then .ok "h5" else if b = 4 then .ok "h4" else .ok "hx"

theorem claim_C3_witness :
    WindowInv (fetchAllPreviousBlocks csBoot rmBoot 5).1 ∧
    (fetchAllPreviousBlocks csBoot rmBoot 5).1.blocksQueue.length = csBoot.blocksToSave ∧
    (∀ k, k + 1 < (fetchAllPreviousBlocks csBoot rmBoot 5).1.blocksQueue.length →
      ((fetchAllPreviousBlocks csBoot rmBoot 5).1.blocksQueue.getD (k + 1) dfltBS).Block =
        ((fetchAllPreviousBlocks csBoot rmBoot 5).1.blocksQueue.getD k dfltBS).Block + 1) ∧
    (getLatestBlockStored (fetchAllPreviousBlocks csBoot rmBoot 5).1).Block =
      (fetchAllPreviousBlocks csBoot rmBoot 5).1.latestBlockNum :=
  claim_C3 csBoot rmBoot 5 "h5" (by decide) (Or.inl rfl) (by decide)

/-- Claim C1: when the backwards scan stops at an accepted overlap anchor at
iteration i (overwrite = existing_idx + 1, read_diff = new_latest - current
latest, with the two splice-policy inequalities holding, which is what
acceptance means), the resulting window is
existing[read_diff .. overwrite] ++ new_queue[overwrite - read_diff ..] and
has length exactly blocksToSave; when the scan exhausts all blocksToSave
iterations without an accepted overlap, or read_diff ≥ len (the overlap test
is skipped), the window is wholesale-replaced by the scan's new queue. -/
theorem claim_C1 (cs : ChainTracker) (remote : Int → Except TrackErr String) (lB : Int)
    (hlen : cs.blocksQueue.length ≤ cs.blocksToSave)
    (hmono : cs.latestBlockNum ≤ lB) :
    (∀ i, i < cs.blocksToSave →
      (∀ j, j < i → fetchOk cs remote (lB - (j : Int)) ∧
        (ovlG cs remote lB (readDiffOf cs lB) j).1 = false) →
      fetchOk cs remote (lB - (i : Int)) →
      (ovlG cs remote lB (readDiffOf cs lB) i).1 = true →
      (fetchAllPreviousBlocks cs remote lB).1.blocksQueue =
          (cs.blocksQueue.drop (readDiffOf cs lB).toNat).take
              (existingIdx cs lB i + 1 - readDiffOf cs lB).toNat ++
            (newQueueAt cs remote lB i).drop
              (existingIdx cs lB i + 1 - readDiffOf cs lB).toNat ∧
        (fetchAllPreviousBlocks cs remote lB).1.blocksQueue.length = cs.blocksToSave) ∧
    ((∀ j, j < cs.blocksToSave → fetchOk cs remote (lB - (j : Int)) ∧
        (ovlG cs remote lB (readDiffOf cs lB) j).1 = false) →
      (fetchAllPreviousBlocks cs remote lB).1.blocksQueue =
        newQueueAt cs remote lB cs.blocksToSave) ∧
    ((cs.blocksQueue.length : Int) ≤ readDiffOf cs lB →
      (∀ j, j < cs.blocksToSave → fetchOk cs remote (lB - (j : Int))) →
      (fetchAllPreviousBlocks cs remote lB).1.blocksQueue =
        newQueueAt cs remote lB cs.blocksToSave) := by
  refine ⟨?_, ?_, ?_⟩
  · intro i hi hscan hfet hov
    simp only [readDiffOf] at hscan hov ⊢
    obtain ⟨hq, hl, _, _, _⟩ := repair_stop cs remote lB i hlen hmono hi hscan hfet hov
    exact ⟨hq, hl⟩
  · intro hscan
    simp only [readDiffOf] at hscan
    obtain ⟨hq, _⟩ := repair_exhaust cs remote lB hmono hscan
    rw [hq]
  · intro hfar hfet
    simp only [readDiffOf] at hfar
    have hscan : ∀ j, j < cs.blocksToSave → fetchOk cs remote (lB - (j : Int)) ∧
        (ovlG cs remote lB (lB - cs.latestBlockNum) j).1 = false := by
      intro j hj
      refine ⟨hfet j hj, ?_⟩
      simp only [ovlG]
      rw [ovl_far_not_found cs _ _ _ hfar]
    obtain ⟨hq, _⟩ := repair_exhaust cs remote lB hmono hscan
    rw [hq]

/-- A tracker holding the contiguous window [(4, h4), (5, h5)]. -/
def csWin : ChainTracker :=
  { blocksToSave := 2, latestBlockNum := 5, blocksQueue := [⟨4, "h4"⟩, ⟨5, "h5"⟩],
    serverBlockMemory := 10, forkCallback := true, newLatestCallback := true }

/-- A remote oracle advancing the chain of `csWin` to block 6. -/
def rmAdv : Int → Except TrackErr String := fun b =>
  if b = 6 then .ok "h6" else if b = 5 then .ok "h5" else if b = 4 then .ok "h4" else .ok "hx"

theorem claim_C1_witness :
    csWin.blocksQueue.length ≤ csWin.blocksToSave ∧ csWin.latestBlockNum ≤ 6 ∧
    ((∀ i, i < csWin.blocksToSave →
      (∀ j, j < i → fetchOk csWin rmAdv (6 - (j : Int)) ∧
        (ovlG csWin rmAdv 6 (readDiffOf csWin 6) j).1 = false) →
      fetchOk csWin rmAdv (6 - (i : Int)) →
      (ovlG csWin rmAdv 6 (readDiffOf csWin 6) i).1 = true →
      (fetchAllPreviousBlocks csWin rmAdv 6).1.blocksQueue =
          (csWin.blocksQueue.drop (readDiffOf csWin 6).toNat).take
              (existingIdx csWin 6 i + 1 - readDiffOf csWin 6).toNat ++
            (newQueueAt csWin rmAdv 6 i).drop
              (existingIdx csWin 6 i + 1 - readDiffOf csWin 6).toNat ∧
        (fetchAllPreviousBlocks csWin rmAdv 6).1.blocksQueue.length = csWin.blocksToSave) ∧
    ((∀ j, j < csWin.blocksToSave → fetchOk csWin rmAdv (6 - (j : Int)) ∧
        (ovlG csWin rmAdv 6 (readDiffOf csWin 6) j).1 = false) →
      (fetchAllPreviousBlocks csWin rmAdv 6).1.blocksQueue =
        newQueueAt csWin rmAdv 6 csWin.blocksToSave) ∧
    ((csWin.blocksQueue.length : Int) ≤ readDiffOf csWin 6 →
      (∀ j, j < csWin.blocksToSave → fetchOk csWin rmAdv (6 - (j : Int))) →
      (fetchAllPreviousBlocks csWin rmAdv 6).1.blocksQueue =
        newQueueAt csWin rmAdv 6 csWin.blocksToSave)) :=
  ⟨by decide, by decide, claim_C1 csWin rmAdv 6 (by decide) (by decide)⟩

/-- Claim C2: at scan iteration i (fetching block new_latest - i) the
overlap anchor at existing index (len - 1 + read_diff) - i is accepted only
if that index is strictly positive and at most len - 1 (index 0, the oldest
record, is never an anchor), the stored block number equals new_latest - i
and the stored hash equals the fetched hash; and when the index is in range
but the stored number differs, the decision is the no-overlap tuple
(false, 0, 0, 0), so the scan just continues. -/
theorem claim_C2 (cs : ChainTracker) (lB rd : Int) (i : Nat) (h : String) :
    ((hashesOverlapIndexes cs rd (i : Int) (lB - (i : Int)) h).1 = true →
      0 < (cs.blocksQueue.length : Int) - 1 + rd - (i : Int) ∧
      (cs.blocksQueue.length : Int) - 1 + rd - (i : Int) ≤ (cs.blocksQueue.length : Int) - 1 ∧
      (cs.blocksQueue.getD ((cs.blocksQueue.length : Int) - 1 + rd - (i : Int)).toNat
        dfltBS).Block = lB - (i : Int) ∧
      (cs.blocksQueue.getD ((cs.blocksQueue.length : Int) - 1 + rd - (i : Int)).toNat
        dfltBS).Hash = h) ∧
    (0 < (cs.blocksQueue.length : Int) - 1 + rd - (i : Int) →
      (cs.blocksQueue.length : Int) - 1 + rd - (i : Int) ≤ (cs.blocksQueue.length : Int) - 1 →
      (cs.blocksQueue.getD ((cs.blocksQueue.length : Int) - 1 + rd - (i : Int)).toNat
        dfltBS).Block ≠ lB - (i : Int) →
      hashesOverlapIndexes cs rd (i : Int) (lB - (i : Int)) h = (false, 0, 0, 0)) := by
  constructor
  · intro hov
    have hspec := ovl_found_spec hov
    exact ⟨hspec.2.1, hspec.2.2.1, hspec.2.2.2.1, hspec.2.2.2.2.1⟩
  · intro hpos hle hne
    simp only [hashesOverlapIndexes]
    split_ifs with c1 c2 <;> rfl

theorem claim_C2_witness :
    ((hashesOverlapIndexes csWin 1 (1 : Nat) (6 - ((1 : Nat) : Int)) "h5").1 = true →
      0 < (csWin.blocksQueue.length : Int) - 1 + 1 - ((1 : Nat) : Int) ∧
      (csWin.blocksQueue.length : Int) - 1 + 1 - ((1 : Nat) : Int) ≤
        (csWin.blocksQueue.length : Int) - 1 ∧
      (csWin.blocksQueue.getD ((csWin.blocksQueue.length : Int) - 1 + 1 -
        ((1 : Nat) : Int)).toNat dfltBS).Block = 6 - ((1 : Nat) : Int) ∧
      (csWin.blocksQueue.getD ((csWin.blocksQueue.length : Int) - 1 + 1 -
        ((1 : Nat) : Int)).toNat dfltBS).Hash = "h5") ∧
    (0 < (csWin.blocksQueue.length : Int) - 1 + 1 - ((1 : Nat) : Int) →
      (csWin.blocksQueue.length : Int) - 1 + 1 - ((1 : Nat) : Int) ≤
        (csWin.blocksQueue.length : Int) - 1 →
      (csWin.blocksQueue.getD ((csWin.blocksQueue.length : Int) - 1 + 1 -
        ((1 : Nat) : Int)).toNat dfltBS).Block ≠ 6 - ((1 : Nat) : Int) →
      hashesOverlapIndexes csWin 1 ((1 : Nat) : Int) (6 - ((1 : Nat) : Int)) "h5" =
        (false, 0, 0, 0)) :=
  claim_C2 csWin 6 1 1 "h5"

/-- Claim C5: got_new_block is true exactly when the fetched latest exceeds
the saved latest number; for a fresh latest at or above the saved one the
fork detector fetches the hash of the saved latest record's own block number
(whose number equals the saved scalar by the window invariant) and reports a
fork exactly when it differs from the saved hash, erroring only when that
fetch errors; it returns only a flag (no window write by construction); and
both flags can be true in the same cycle. -/
theorem claim_C5 (cs : ChainTracker) (remote : Int → Except TrackErr String) (nl : Int)
    (hinv : (getLatestBlockStored cs).Block = cs.latestBlockNum)
    (hge : cs.latestBlockNum ≤ nl) :
    (gotNewBlock cs nl = true ↔ cs.latestBlockNum < nl) ∧
    (∀ e, fetchBlockHashByNum cs remote (getLatestBlockStored cs).Block = .error e →
      forkChanged cs remote nl = .error e) ∧
    (∀ h, fetchBlockHashByNum cs remote (getLatestBlockStored cs).Block = .ok h →
      forkChanged cs remote nl = .ok (decide ((getLatestBlockStored cs).Hash ≠ h))) ∧
    (∃ cs2 : ChainTracker, ∃ remote2 : Int → Except TrackErr String, ∃ nl2 : Int,
      gotNewBlock cs2 nl2 = true ∧ forkChanged cs2 remote2 nl2 = .ok true) := by
  refine ⟨?_, ?_, ?_, ?_⟩
  · simp [gotNewBlock]
  · intro e he
    unfold forkChanged
    by_cases heq : nl = cs.latestBlockNum
    · have hnb : nl = (getLatestBlockStored cs).Block := by omega
      rw [if_pos heq, hnb, he]
    · rw [if_neg heq]
      simp only [he]
  · intro h hh
    unfold forkChanged
    by_cases heq : nl = cs.latestBlockNum
    · have hnb : nl = (getLatestBlockStored cs).Block := by omega
      rw [if_pos heq, hnb, hh]
    · rw [if_neg heq]
      simp only [hh]
  · exact ⟨⟨1, 5, [⟨5, "a"⟩], 10, false, false⟩, fun _ => .ok "z", 6, by decide, by decide⟩

theorem claim_C5_witness :
    (gotNewBlock csWin 6 = true ↔ csWin.latestBlockNum < 6) ∧
    (∀ e, fetchBlockHashByNum csWin rmAdv (getLatestBlockStored csWin).Block = .error e →
      forkChanged csWin rmAdv 6 = .error e) ∧
    (∀ h, fetchBlockHashByNum csWin rmAdv (getLatestBlockStored csWin).Block = .ok h →
      forkChanged csWin rmAdv 6 = .ok (decide ((getLatestBlockStored csWin).Hash ≠ h))) ∧
    (∃ cs2 : ChainTracker, ∃ remote2 : Int → Except TrackErr String, ∃ nl2 : Int,
      gotNewBlock cs2 nl2 = true ∧ forkChanged cs2 remote2 nl2 = .ok true) :=
  claim_C5 csWin rmAdv 6 (by decide) (by decide)

/-- Claim C6: a remote hash-fetch error during the backwards scan aborts the
repair with that error and leaves the tracker unchanged; a new latest below
the current one is rejected with an error and no mutation; and a successful
repair sets the latest number to the provided (not smaller) new latest, so
the latest number never decreases across successful repairs. -/
theorem claim_C6 (cs : ChainTracker) (remote : Int → Except TrackErr String) (nl : Int) :
    (nl < cs.latestBlockNum →
      fetchAllPreviousBlocks cs remote nl = (cs, .error .olderThanCurrentState)) ∧
    (∀ i e, cs.latestBlockNum ≤ nl → i < cs.blocksToSave →
      (∀ j, j < i → fetchOk cs remote (nl - (j : Int)) ∧
        (ovlG cs remote nl (readDiffOf cs nl) j).1 = false) →
      fetchBlockHashByNum cs remote (nl - (i : Int)) = .error e →
      fetchAllPreviousBlocks cs remote nl = (cs, .error e)) ∧
    (∀ h, (fetchAllPreviousBlocks cs remote nl).2 = .ok h →
      (fetchAllPreviousBlocks cs remote nl).1.latestBlockNum = nl ∧
      cs.latestBlockNum ≤ nl) := by
  refine ⟨?_, ?_, ?_⟩
  · intro hlt
    unfold fetchAllPreviousBlocks
    rw [if_pos hlt]
  · intro i e hmono hi hscan herr
    simp only [readDiffOf] at hscan
    have hrh : readHashes cs remote nl (nl - cs.latestBlockNum) = .error e := by
      rw [readHashes]
      exact loop_error cs remote nl (nl - cs.latestBlockNum) i e herr cs.blocksToSave 0 _ _
        (by omega) (by omega) (fun j h1 h2 => hscan j h2)
    unfold fetchAllPreviousBlocks
    rw [if_neg (by omega)]
    simp only [hrh]
  · intro h hok
    by_cases hlt : nl < cs.latestBlockNum
    · exfalso
      unfold fetchAllPreviousBlocks at hok
      rw [if_pos hlt] at hok
      exact Except.noConfusion hok
    refine ⟨?_, by omega⟩
    cases hrh : readHashes cs remote nl (nl - cs.latestBlockNum) with
    | error e =>
      exfalso
      unfold fetchAllPreviousBlocks at hok
      rw [if_neg hlt] at hok
      simp only [hrh] at hok
      exact Except.noConfusion hok
    | ok v =>
      obtain ⟨s, e2, n, q'⟩ := v
      by_cases hn : 0 < n
      · obtain ⟨hq, _⟩ := repair_of_ok_pos cs remote nl s e2 n q' (by omega) hrh hn
        rw [hq]
      · obtain ⟨hq, _⟩ := repair_of_ok_zero cs remote nl s e2 n q' (by omega) hrh hn
        rw [hq]

theorem claim_C6_witness :
    (6 < csWin.latestBlockNum →
      fetchAllPreviousBlocks csWin rmAdv 6 = (csWin, .error .olderThanCurrentState)) ∧
    (∀ i e, csWin.latestBlockNum ≤ 6 → i < csWin.blocksToSave →
      (∀ j, j < i → fetchOk csWin rmAdv (6 - (j : Int)) ∧
        (ovlG csWin rmAdv 6 (readDiffOf csWin 6) j).1 = false) →
      fetchBlockHashByNum csWin rmAdv (6 - (i : Int)) = .error e →
      fetchAllPreviousBlocks csWin rmAdv 6 = (csWin, .error e)) ∧
    (∀ h, (fetchAllPreviousBlocks csWin rmAdv 6).2 = .ok h →
      (fetchAllPreviousBlocks csWin rmAdv 6).1.latestBlockNum = 6 ∧
      csWin.latestBlockNum ≤ 6) :=
  claim_C6 csWin rmAdv 6

/-- Claim C7: a poll cycle in which the remote reports the same latest block
number and the same hash for it performs no repair, leaves the tracker
byte-identical and emits zero callbacks. -/
theorem claim_C7 (cs : ChainTracker) (remote : Remote)
    (h1 : remote.latestNum = .ok cs.latestBlockNum)
    (h2 : remote.hashByNum cs.latestBlockNum = .ok (getLatestBlockStored cs).Hash) :
    fetchAllPreviousBlocksIfNecessary cs remote = (cs, [], .ok ()) := by
  unfold fetchAllPreviousBlocksIfNecessary
  rw [h1]
  have hgn : gotNewBlock cs cs.latestBlockNum = false := by simp [gotNewBlock]
  have hfc : forkChanged cs remote.hashByNum cs.latestBlockNum = .ok false := by
    unfold forkChanged
    rw [if_pos rfl]
    have hfetch : fetchBlockHashByNum cs remote.hashByNum cs.latestBlockNum =
        .ok (getLatestBlockStored cs).Hash := by
      unfold fetchBlockHashByNum
      rw [if_neg (by omega), h2]
    rw [hfetch]
    simp
  simp [hfc, hgn]

theorem claim_C7_witness :
    fetchAllPreviousBlocksIfNecessary csWin ⟨.ok 5, rmAdv⟩ = (csWin, [], .ok ()) :=
  claim_C7 csWin ⟨.ok 5, rmAdv⟩ (by decide) (by decide)

/-- Claim C9: the tracker's hash-fetch wrapper returns the too-old error,
independently of the remote fetcher, exactly when the requested number is
below latest minus server_block_memory; at or above that bound the request
is forwarded to the remote fetcher. -/
theorem claim_C9 (cs : ChainTracker) (b : Int) :
    (b < cs.latestBlockNum - (cs.serverBlockMemory : Int) →
      ∀ remote : Int → Except TrackErr String,
        fetchBlockHashByNum cs remote b = .error .tooOldForRemote) ∧
    (cs.latestBlockNum - (cs.serverBlockMemory : Int) ≤ b →
      ∀ remote : Int → Except TrackErr String,
        fetchBlockHashByNum cs remote b = remote b) := by
  constructor
  · intro hlt remote
    unfold fetchBlockHashByNum
    rw [if_pos hlt]
  · intro hge remote
    unfold fetchBlockHashByNum
    rw [if_neg (by omega)]

theorem claim_C9_witness :
    ((-100 : Int) < csWin.latestBlockNum - (csWin.serverBlockMemory : Int) →
      ∀ remote : Int → Except TrackErr String,
        fetchBlockHashByNum csWin remote (-100) = .error .tooOldForRemote) ∧
    (csWin.latestBlockNum - (csWin.serverBlockMemory : Int) ≤ (-100 : Int) →
      ∀ remote : Int → Except TrackErr String,
        fetchBlockHashByNum csWin remote (-100) = remote (-100)) :=
  claim_C9 csWin (-100)

theorem wrapInt64_eq_self (x : Int) (h1 : -(2 ^ 63) ≤ x) (h2 : x < 2 ^ 63) :
    wrapInt64 x = x := by
  unfold wrapInt64
  rw [Int.emod_eq_of_lt (by omega) (by omega)]
  ring

/-- Claim C8 (amended): whenever the int64 product does not overflow, the
backoff equals min(base * 2^min(n,10), ten minutes); backoff with failure
count 0 equals the base whenever the base is between 0 and ten minutes (for
a larger base it is capped at ten minutes, so the original unconditional
"equals the base" fails); and after two failures the period is
min(base * 4, ten minutes), for a nonnegative in-range base. -/
theorem claim_C8 (baseTime : Int) (n : Nat) :
    (-(2 ^ 63) ≤ baseTime * 2 ^ min n 10 → baseTime * 2 ^ min n 10 < 2 ^ 63 →
      exponentialBackoff baseTime n = min (baseTime * 2 ^ min n 10) BACKOFF_MAX_TIME) ∧
    (0 ≤ baseTime → baseTime ≤ BACKOFF_MAX_TIME → exponentialBackoff baseTime 0 = baseTime) ∧
    (0 ≤ baseTime → baseTime * 4 < 2 ^ 63 →
      exponentialBackoff baseTime 2 = min (baseTime * 4) BACKOFF_MAX_TIME) := by
  have hmaxval : BACKOFF_MAX_TIME = 600000000000 := rfl
  refine ⟨?_, ?_, ?_⟩
  · intro h1 h2
    simp only [exponentialBackoff]
    rw [show (if n > 10 then 10 else n) = min n 10 by split_ifs <;> omega]
    rw [wrapInt64_eq_self _ h1 h2]
    by_cases hbm : baseTime * 2 ^ min n 10 > BACKOFF_MAX_TIME
    · rw [if_pos hbm]
      omega
    · rw [if_neg hbm]
      omega
  · intro hnn hle
    simp only [exponentialBackoff]
    norm_num
    rw [wrapInt64_eq_self _ (by omega) (by omega)]
    rw [if_neg (by omega)]
  · intro hnn h4
    simp only [exponentialBackoff]
    norm_num
    rw [wrapInt64_eq_self _ (by omega) (by omega)]
    by_cases hbm : baseTime * 4 > BACKOFF_MAX_TIME
    · rw [if_pos hbm]
      omega
    · rw [if_neg hbm]
      omega

theorem claim_C8_counterexample :
    exponentialBackoff (2 ^ 53) 10 ≠ min ((2 ^ 53) * 2 ^ min 10 10) BACKOFF_MAX_TIME ∧
    exponentialBackoff (BACKOFF_MAX_TIME + 1) 0 ≠ BACKOFF_MAX_TIME + 1 := by
  constructor <;> decide

theorem claim_C8_witness :
    (-(2 ^ 63) ≤ (1000000 : Int) * 2 ^ min 2 10 → (1000000 : Int) * 2 ^ min 2 10 < 2 ^ 63 →
      exponentialBackoff 1000000 2 = min ((1000000 : Int) * 2 ^ min 2 10) BACKOFF_MAX_TIME) ∧
    (0 ≤ (1000000 : Int) → (1000000 : Int) ≤ BACKOFF_MAX_TIME →
      exponentialBackoff 1000000 0 = 1000000) ∧
    (0 ≤ (1000000 : Int) → (1000000 : Int) * 4 < 2 ^ 63 →
      exponentialBackoff 1000000 2 = min ((1000000 : Int) * 4) BACKOFF_MAX_TIME) :=
  claim_C8 1000000 2

theorem splice_length_ge (cs : ChainTracker) (remote : Int → Except TrackErr String)
    (nl s e n : Int) (q' : List BlockStore)
    (hmono : cs.latestBlockNum ≤ nl)
    (hrh : readHashes cs remote nl (nl - cs.latestBlockNum) = .ok (s, e, n, q')) :
    (0 < n → cs.blocksToSave ≤
      ((cs.blocksQueue.drop s.toNat).take (e - s).toNat ++ q'.drop n.toNat).length) ∧
    (¬ 0 < n → cs.blocksToSave ≤ q'.length) := by
  rw [readHashes] at hrh
  obtain ⟨i, hi0, hile, hiscan, hicase⟩ := loop_inv cs remote nl (nl - cs.latestBlockNum)
    cs.blocksToSave 0 (0, 0, 0) (List.replicate cs.blocksToSave dfltBS) s e n q' hrh
  rcases hicase with ⟨hilt, hifet, hiov, hsen, hq'⟩ | ⟨hieq, hq', hsen⟩
  · have hovRaw : (hashesOverlapIndexes cs (nl - cs.latestBlockNum) (i : Int)
        (nl - (i : Int)) (Hof cs remote (nl - (i : Int)))).1 = true := by
      simpa [ovlG] using hiov
    obtain ⟨h1, h2, h3, h4, h5, h6, h7, h8⟩ := ovl_found_spec hovRaw
    have hq'len : q'.length = cs.blocksToSave := by
      rw [hq', fillRange_length, List.length_replicate]
    simp only [ovlG] at hsen
    rw [h8] at hsen
    simp only [Prod.mk.injEq] at hsen
    obtain ⟨hseq, heeq, hneq⟩ := hsen
    constructor
    · intro hn
      rw [List.length_append, List.length_take, List.length_drop, List.length_drop, hq'len]
      omega
    · intro hn
      rw [hq'len]
  · have hq'len : q'.length = cs.blocksToSave := by
      rw [hq', fillRange_length, List.length_replicate]
    have hn0 : n = 0 := by
      rcases hsen with ⟨_, hsen⟩ | ⟨_, hsen⟩ <;>
        simpa using congrArg (fun t => t.2.2) hsen
    exact ⟨fun hn => absurd hn (by omega), fun _ => by rw [hq'len]⟩

theorem repair_ok_hash (cs : ChainTracker) (remote : Int → Except TrackErr String)
    (lB : Int) (tip : String)
    (hok : (fetchAllPreviousBlocks cs remote lB).2 = .ok tip) :
    tip = (getLatestBlockStored (fetchAllPreviousBlocks cs remote lB).1).Hash := by
  by_cases hlt : lB < cs.latestBlockNum
  · exfalso
    unfold fetchAllPreviousBlocks at hok
    rw [if_pos hlt] at hok
    exact Except.noConfusion hok
  cases hrh : readHashes cs remote lB (lB - cs.latestBlockNum) with
  | error e =>
    exfalso
    unfold fetchAllPreviousBlocks at hok
    rw [if_neg hlt] at hok
    simp only [hrh] at hok
    exact Except.noConfusion hok
  | ok v =>
    obtain ⟨s, e2, n, q'⟩ := v
    by_cases hn : 0 < n
    · obtain ⟨hq, hv⟩ := repair_of_ok_pos cs remote lB s e2 n q' (by omega) hrh hn
      rw [hv] at hok
      split_ifs at hok
      exact (Except.ok.inj hok).symm
    · obtain ⟨hq, hv⟩ := repair_of_ok_zero cs remote lB s e2 n q' (by omega) hrh hn
      rw [hv] at hok
      split_ifs at hok
      exact (Except.ok.inj hok).symm

/-- Claim C10 (amended): the post-splice length check in the repair is
defensive dead code: for every scan result the replaced queue holds at least
blocksToSave records, so the error branch that would report failure after
mutating never fires; consequently every error returned by the repair leaves
the tracker (window and latest number) unchanged — the remote-fetch errors
and the monotonicity rejection, both of which precede any mutation, are the
only realizable error paths. -/
theorem claim_C10 (cs : ChainTracker) (remote : Int → Except TrackErr String) (nl : Int) :
    (∀ s e n q', cs.latestBlockNum ≤ nl →
      readHashes cs remote nl (nl - cs.latestBlockNum) = .ok (s, e, n, q') →
      cs.blocksToSave ≤ (replaceBlocksQueue cs nl n s e q' (cs.blocksToSave : Int)).2.2.1) ∧
    (∀ e, (fetchAllPreviousBlocks cs remote nl).2 = .error e →
      (fetchAllPreviousBlocks cs remote nl).1 = cs) := by
  constructor
  · intro s e n q' hmono hrh
    have hsl := splice_length_ge cs remote nl s e n q' hmono hrh
    simp only [replaceBlocksQueue]
    split_ifs with hn
    · exact hsl.1 hn
    · exact hsl.2 hn
  · intro e herr
    by_cases hlt : nl < cs.latestBlockNum
    · unfold fetchAllPreviousBlocks
      rw [if_pos hlt]
    · cases hrh : readHashes cs remote nl (nl - cs.latestBlockNum) with
      | error e2 =>
        unfold fetchAllPreviousBlocks
        rw [if_neg hlt]
        simp only [hrh]
      | ok v =>
        exfalso
        obtain ⟨s, e2, n, q'⟩ := v
        have hsl := splice_length_ge cs remote nl s e2 n q' (by omega) hrh
        by_cases hn : 0 < n
        · obtain ⟨hq, hv⟩ := repair_of_ok_pos cs remote nl s e2 n q' (by omega) hrh hn
          rw [hv] at herr
          rw [if_neg (by have := hsl.1 hn; omega)] at herr
          exact Except.noConfusion herr
        · obtain ⟨hq, hv⟩ := repair_of_ok_zero cs remote nl s e2 n q' (by omega) hrh hn
          rw [hv] at herr
          rw [if_neg (by have := hsl.2 hn; omega)] at herr
          exact Except.noConfusion herr

/-- A remote that serves the new tip but fails on every older block. -/
def rmErr : Int → Except TrackErr String := fun b =>
  if b = 6 then .ok "h6" else .error (.remoteFailure "node down")

theorem claim_C10_counterexample :
    (fetchAllPreviousBlocks csWin rmErr 6).2 = .error (.remoteFailure "node down") ∧
    (fetchAllPreviousBlocks csWin rmErr 6).1 = csWin ∧
    (fetchAllPreviousBlocks csWin rmAdv 6).2 = .ok "h6" ∧
    (fetchAllPreviousBlocks csWin rmAdv 6).1.blocksQueue.length = csWin.blocksToSave := by
  refine ⟨by decide, by decide, by decide, by decide⟩

theorem claim_C10_witness :
    (∀ s e n q', csWin.latestBlockNum ≤ 6 →
      readHashes csWin rmErr 6 (6 - csWin.latestBlockNum) = .ok (s, e, n, q') →
      csWin.blocksToSave ≤
        (replaceBlocksQueue csWin 6 n s e q' (csWin.blocksToSave : Int)).2.2.1) ∧
    (∀ e, (fetchAllPreviousBlocks csWin rmErr 6).2 = .error e →
      (fetchAllPreviousBlocks csWin rmErr 6).1 = csWin) :=
  claim_C10 csWin rmErr 6

/-- Recognize a new-latest callback event. -/
def isNewLatestEvent : Event → Bool
  | .newLatest _ _ => true
  | .fork _ => false

/-- Recognize a fork callback event. -/
def isForkEvent : Event → Bool
  | .newLatest _ _ => false
  | .fork _ => true

theorem intRange_length (lo hi : Int) : (intRange lo hi).length = (hi + 1 - lo).toNat := by
  rw [intRange, List.length_map, List.length_range]

theorem filter_new_map (xs : List Int) (hsh : String) :
    (xs.map fun b => Event.newLatest b hsh).filter isNewLatestEvent =
      xs.map fun b => Event.newLatest b hsh := by
  induction xs with
  | nil => rfl
  | cons a xs ih => simp [isNewLatestEvent, ih]

theorem filter_fork_map (xs : List Int) (hsh : String) :
    (xs.map fun b => Event.newLatest b hsh).filter isForkEvent = [] := by
  induction xs with
  | nil => rfl
  | cons a xs ih => simp [isForkEvent, ih]

/-- Claim C4: in a cycle whose repair path returns success, the new-latest
events are exactly one per block in [prev_latest+1 .. new_latest] in
ascending order when that callback is configured and a new block was seen,
each carrying the post-repair tip hash; their number is max(0, new_latest -
prev_latest); the fork event (when the detector reported a fork and that
callback is configured) is a single fork(new_latest) event placed after all
new-latest events; and the fork event count never exceeds 1. -/
theorem claim_C4 (cs : ChainTracker) (remote : Remote) (nl : Int)
    (hnl : remote.latestNum = .ok nl)
    (hok : (fetchAllPreviousBlocksIfNecessary cs remote).2.2 = .ok ()) :
    ((fetchAllPreviousBlocksIfNecessary cs remote).2.1.filter isNewLatestEvent =
      (if gotNewBlock cs nl && cs.newLatestCallback then
        (intRange (cs.latestBlockNum + 1) nl).map (fun b => Event.newLatest b
          (getLatestBlockStored (fetchAllPreviousBlocksIfNecessary cs remote).1).Hash)
      else [])) ∧
    (cs.newLatestCallback = true →
      ((fetchAllPreviousBlocksIfNecessary cs remote).2.1.filter isNewLatestEvent).length =
        (nl - cs.latestBlockNum).toNat) ∧
    (∀ fk, forkChanged cs remote.hashByNum nl = .ok fk →
      (fetchAllPreviousBlocksIfNecessary cs remote).2.1.filter isForkEvent =
        (if fk && cs.forkCallback then [Event.fork nl] else [])) ∧
    ((fetchAllPreviousBlocksIfNecessary cs remote).2.1.filter isForkEvent).length ≤ 1 ∧
    ((fetchAllPreviousBlocksIfNecessary cs remote).2.1 =
      (fetchAllPreviousBlocksIfNecessary cs remote).2.1.filter isNewLatestEvent ++
      (fetchAllPreviousBlocksIfNecessary cs remote).2.1.filter isForkEvent) := by
  cases hfc : forkChanged cs remote.hashByNum nl with
  | error e =>
    exfalso
    unfold fetchAllPreviousBlocksIfNecessary at hok
    rw [hnl] at hok
    simp only [hfc] at hok
    exact Except.noConfusion hok
  | ok fk =>
    by_cases hgf : (gotNewBlock cs nl || fk) = true
    · -- the repair ran
      cases hrep : fetchAllPreviousBlocks cs remote.hashByNum nl with
      | mk cs2 res2 =>
        cases res2 with
        | error e =>
          exfalso
          unfold fetchAllPreviousBlocksIfNecessary at hok
          rw [hnl] at hok
          simp only [hfc, hgf, if_true, hrep] at hok
          exact Except.noConfusion hok
        | ok tip =>
          have hres : fetchAllPreviousBlocksIfNecessary cs remote =
              (cs2,
               (if gotNewBlock cs nl && cs.newLatestCallback then
                 (intRange (cs.latestBlockNum + 1) nl).map
                   (fun b => Event.newLatest b tip)
               else []) ++
               (if fk && cs.forkCallback then [Event.fork nl] else []),
               .ok ()) := by
            unfold fetchAllPreviousBlocksIfNecessary
            rw [hnl]
            simp only [hfc, hgf, if_true, hrep]
          have htip : tip = (getLatestBlockStored
              (fetchAllPreviousBlocksIfNecessary cs remote).1).Hash := by
            rw [hres]
            have h2 : (fetchAllPreviousBlocks cs remote.hashByNum nl).2 = .ok tip := by
              rw [hrep]
            have h1 : (fetchAllPreviousBlocks cs remote.hashByNum nl).1 = cs2 := by
              rw [hrep]
            have := repair_ok_hash cs remote.hashByNum nl tip h2
            rw [h1] at this
            exact this
          rw [hres] at htip
          dsimp only at htip
          rw [hres]
          dsimp only
          rw [← htip]
          have hgnl : gotNewBlock cs nl = true → cs.latestBlockNum < nl := by
            simp [gotNewBlock]
          have hgnlf : gotNewBlock cs nl = false → nl ≤ cs.latestBlockNum := by
            simp [gotNewBlock]
          rcases hg : gotNewBlock cs nl <;> rcases hcb : cs.newLatestCallback <;>
            rcases hfk : fk <;> rcases hcf : cs.forkCallback <;>
            refine ⟨?_, ?_, ?_, ?_, ?_⟩ <;>
              simp_all [List.filter_append, filter_new_map, filter_fork_map,
                isNewLatestEvent, isForkEvent, intRange_length, List.length_map,
                gotNewBlock] <;>
              try omega
    · -- no new block and no fork: nothing happens
      have hres : fetchAllPreviousBlocksIfNecessary cs remote = (cs, [], .ok ()) := by
        unfold fetchAllPreviousBlocksIfNecessary
        rw [hnl]
        simp only [hfc]
        rw [if_neg hgf]
      have hg2 : gotNewBlock cs nl = false := by
        cases hgb : gotNewBlock cs nl
        · rfl
        · exact absurd (by rw [hgb, Bool.true_or]) hgf
      have hfk2 : fk = false := by
        cases hfb : fk
        · rfl
        · exact absurd (by rw [hfb, Bool.or_true]) hgf
      have hnle : nl ≤ cs.latestBlockNum := by
        have hgg := hg2
        simp [gotNewBlock] at hgg
        exact hgg
      rw [hres]
      dsimp only
      refine ⟨by simp [hg2], ?_, ?_, by simp, by simp⟩
      · intro _
        simp
        omega
      · intro fk3 hfk3
        have heq3 : fk = fk3 := Except.ok.inj hfk3
        subst heq3
        simp [hfk2]

/-- A remote oracle advancing the chain of `csWin` by two blocks to 7. -/
def rmCat : Int → Except TrackErr String := fun b =>
  if b = 7 then .ok "h7" else if b = 6 then .ok "h6" else if b = 5 then .ok "h5" else .ok "hx"

theorem claim_C4_witness :
    ((fetchAllPreviousBlocksIfNecessary csWin ⟨.ok 7, rmCat⟩).2.1.filter isNewLatestEvent =
      (if gotNewBlock csWin 7 && csWin.newLatestCallback then
        (intRange (csWin.latestBlockNum + 1) 7).map (fun b => Event.newLatest b
          (getLatestBlockStored (fetchAllPreviousBlocksIfNecessary csWin ⟨.ok 7, rmCat⟩).1).Hash)
      else [])) ∧
    (csWin.newLatestCallback = true →
      ((fetchAllPreviousBlocksIfNecessary csWin ⟨.ok 7, rmCat⟩).2.1.filter
        isNewLatestEvent).length = ((7 : Int) - csWin.latestBlockNum).toNat) ∧
    (∀ fk, forkChanged csWin rmCat 7 = .ok fk →
      (fetchAllPreviousBlocksIfNecessary csWin ⟨.ok 7, rmCat⟩).2.1.filter isForkEvent =
        (if fk && csWin.forkCallback then [Event.fork 7] else [])) ∧
    ((fetchAllPreviousBlocksIfNecessary csWin ⟨.ok 7, rmCat⟩).2.1.filter
      isForkEvent).length ≤ 1 ∧
    ((fetchAllPreviousBlocksIfNecessary csWin ⟨.ok 7, rmCat⟩).2.1 =
      (fetchAllPreviousBlocksIfNecessary csWin ⟨.ok 7, rmCat⟩).2.1.filter isNewLatestEvent ++
      (fetchAllPreviousBlocksIfNecessary csWin ⟨.ok 7, rmCat⟩).2.1.filter isForkEvent) :=
  claim_C4 csWin ⟨.ok 7, rmCat⟩ 7 rfl (by decide)
